import Mathlib

/-!
Verification development for the transcript lifecycle and
time-synchronization engine of the audio transcription app.

The embedded code comes from:
- `frontend/src/components/TranscriptView.tsx` (Time-Index / active word),
- the search page (`performSearch` windowed scan),
- `PlayerPage` in the player route (polling, retry, observation handling),
- `Home.handleFilesSelected` (upload batch outcome),
- `TranscriptView` rendering branches (token visibility).

Playback timestamps are JavaScript numbers used only in comparisons,
embedded as rationals; JS `Array.prototype.findIndex` is embedded with its
`-1` not-found convention.
-/

namespace TranscriptCore

/-- A transcript word (`TranscriptWord` in the source): the word text, its
`start`/`end` timestamps in seconds, and an optional confidence tag
(`deceptionConfidence` in the source). `end` is a Lean keyword, so the field
is named `endS`. -/
structure Token where
  word : String
  start : ℚ
  endS : ℚ
  deceptionConfidence : Option String := none
deriving DecidableEq, Repr, Inhabited

/-- Transcript status, the `status` field of the transcript response and the view:
`'uploaded' | 'processing' | 'completed' | 'failed'`. -/
inductive Status where
  | uploaded
  | processing
  | completed
  | failed
deriving DecidableEq, Repr

/-- JavaScript `Array.prototype.findIndex` (element and index passed to the
predicate), scanning from position `i`: first index at which the predicate
holds, `-1` when none does. -/
def findIndexFrom {α : Type} (p : α → Nat → Bool) : List α → Nat → Int
  | [], _ => -1
  | x :: xs, i => if p x i then (i : Int) else findIndexFrom p xs (i + 1)

/-- JavaScript `Array.prototype.findIndex` starting at index 0. -/
def findIndex {α : Type} (p : α → Nat → Bool) (xs : List α) : Int :=
  findIndexFrom p xs 0

/-- The predicate passed to `findIndex` in `activeWordIndex`
(`TranscriptView.tsx`): `currentTime >= word.start &&
(i === words.length - 1 || currentTime < words[i + 1].start)`. The
short-circuiting `||` means `words[i + 1]` is only read when `i` is not the
last index, embedded via `Option.elim` on `get?`. -/
def activePred (words : List Token) (t : ℚ) (w : Token) (i : Nat) : Bool :=
  decide (w.start ≤ t) &&
    (i == words.length - 1 ||
      ((words.get? (i + 1)).elim false fun next => decide (t < next.start)))

/-- The active-word computation `activeWordIndex` from `TranscriptView.tsx` lines 25-27:
`words.findIndex((word, i) => currentTime >= word.start &&
  (i === words.length - 1 || currentTime < words[i + 1].start))`.
Returns `-1` (the `findIndex` "none" sentinel) when no word is active. -/
def activeWordIndex (words : List Token) (currentTime : ℚ) : Int :=
  findIndex (activePred words currentTime) words

/-- Tokens sorted by non-decreasing `start` (well-formed transcript input). -/
def SortedByStart (words : List Token) : Prop :=
  words.Pairwise (fun a b => a.start ≤ b.start)

/-- The §4.1 window contract at index `i`: `tokens[i].start <= time` and
(`i` is the last index or `time < tokens[i+1].start`). -/
def WindowProp (words : List Token) (t : ℚ) (i : Nat) : Prop :=
  ∃ w, words.get? i = some w ∧ w.start ≤ t ∧
    (i + 1 = words.length ∨ ∃ w2, words.get? (i + 1) = some w2 ∧ t < w2.start)

/-- Specification of `findIndexFrom`: it either finds nothing (every position fails the
predicate) or returns the first position at which it holds. -/
theorem findIndexFrom_spec {α : Type} (p : α → Nat → Bool) (xs : List α) (i : Nat) :
    (findIndexFrom p xs i = -1 ∧ ∀ j x, xs.get? j = some x → p x (i + j) = false) ∨
    (∃ j x, xs.get? j = some x ∧ findIndexFrom p xs i = ((i + j : Nat) : Int) ∧
      p x (i + j) = true ∧ ∀ k y, k < j → xs.get? k = some y → p y (i + k) = false) := by
  induction xs generalizing i with
  | nil =>
    left
    refine ⟨rfl, ?_⟩
    intro j x hx
    simp at hx
  | cons a t ih =>
    by_cases ha : p a i = true
    · right
      refine ⟨0, a, rfl, ?_, ?_, ?_⟩
      · simp [findIndexFrom, ha]
      · simpa using ha
      · intro k y hk
        omega
    · have ha' : p a i = false := by
        revert ha
        cases p a i <;> simp
      rcases ih (i + 1) with ⟨h1, h2⟩ | ⟨j, x, hx, h1, h2, h3⟩
      · left
        refine ⟨?_, ?_⟩
        · simp [findIndexFrom, ha', h1]
        · intro j x hx
          cases j with
          | zero =>
            simp at hx
            subst hx
            simpa using ha'
          | succ j1 =>
            rw [List.get?_cons_succ] at hx
            have hrec := h2 j1 x hx
            have harith : i + (j1 + 1) = i + 1 + j1 := by omega
            rw [harith]
            exact hrec
      · right
        refine ⟨j + 1, x, ?_, ?_, ?_, ?_⟩
        · rw [List.get?_cons_succ]
          exact hx
        · have hstep : findIndexFrom p (a :: t) i = findIndexFrom p t (i + 1) := by
            simp [findIndexFrom, ha']
          rw [hstep, h1]
          congr 1
          omega
        · have harith : i + (j + 1) = i + 1 + j := by omega
          rw [harith]
          exact h2
        · intro k y hk hy
          cases k with
          | zero =>
            simp at hy
            subst hy
            simpa using ha'
          | succ k1 =>
            rw [List.get?_cons_succ] at hy
            have harith : i + (k1 + 1) = i + 1 + k1 := by omega
            rw [harith]
            exact h3 k1 y (by omega) hy

/-- For a token actually at position `i`, the `findIndex` predicate of
`activeWordIndex` holds exactly when the §4.1 window contract holds at `i`. -/
theorem activePred_eq_true_iff (words : List Token) (t : ℚ) (w : Token) (i : Nat)
    (hw : words.get? i = some w) :
    activePred words t w i = true ↔ WindowProp words t i := by
  have hi : i < words.length := by
    rcases List.get?_eq_some.mp hw with ⟨h, _⟩
    exact h
  constructor
  · intro h
    unfold activePred at h
    rw [Bool.and_eq_true] at h
    obtain ⟨h1, h2⟩ := h
    refine ⟨w, hw, by simpa using h1, ?_⟩
    rw [Bool.or_eq_true] at h2
    rcases h2 with h2 | h2
    · left
      have hlast : i = words.length - 1 := by simpa using h2
      omega
    · rcases hnext : words.get? (i + 1) with _ | w2
      · rw [hnext] at h2
        simp at h2
      · rw [hnext] at h2
        right
        exact ⟨w2, rfl, by simpa using h2⟩
  · rintro ⟨w1, hw1, hle, hor⟩
    rw [hw] at hw1
    have hww : w = w1 := by
      injection hw1
    subst hww
    unfold activePred
    rw [Bool.and_eq_true]
    refine ⟨by simpa using hle, ?_⟩
    rw [Bool.or_eq_true]
    rcases hor with hl | ⟨w2, hw2, hlt⟩
    · left
      have : i = words.length - 1 := by omega
      simpa using this
    · right
      rw [hw2]
      simpa using hlt

/-- Sortedness gives monotone `start` fields along positions. -/
theorem sorted_start_mono {words : List Token} (hs : SortedByStart words)
    {a b : Nat} {wa wb : Token} (ha : words.get? a = some wa)
    (hb : words.get? b = some wb) (hab : a ≤ b) : wa.start ≤ wb.start := by
  rcases List.get?_eq_some.mp ha with ⟨ha1, rfl⟩
  rcases List.get?_eq_some.mp hb with ⟨hb1, rfl⟩
  rcases Nat.lt_or_eq_of_le hab with h | h
  · exact List.pairwise_iff_get.mp hs ⟨a, ha1⟩ ⟨b, hb1⟩ h
  · subst h
    rfl

/-- Scanning forward from any position whose token has already started, some
position satisfying the window contract exists. -/
theorem exists_window (words : List Token) (t : ℚ) :
    ∀ fuel i w, words.get? i = some w → w.start ≤ t →
      words.length - i ≤ fuel → ∃ j, i ≤ j ∧ WindowProp words t j := by
  intro fuel
  induction fuel with
  | zero =>
    intro i w hw _ hf
    rcases List.get?_eq_some.mp hw with ⟨hi, _⟩
    omega
  | succ n ih =>
    intro i w hw hwt hf
    rcases List.get?_eq_some.mp hw with ⟨hi, _⟩
    by_cases hlast : i + 1 = words.length
    · exact ⟨i, le_refl i, w, hw, hwt, Or.inl hlast⟩
    · have hi1 : i + 1 < words.length := by omega
      have hw2 : words.get? (i + 1) = some (words.get ⟨i + 1, hi1⟩) :=
        List.get?_eq_get hi1
      by_cases ht : t < (words.get ⟨i + 1, hi1⟩).start
      · exact ⟨i, le_refl i, w, hw, hwt, Or.inr ⟨_, hw2, ht⟩⟩
      · rcases ih (i + 1) _ hw2 (le_of_not_lt ht) (by omega) with ⟨j, hj, hwp⟩
        exact ⟨j, by omega, hwp⟩

/-- In a sorted transcript the window contract cannot hold at two distinct
positions with the first strictly below the second. -/
theorem window_not_lt {words : List Token} {t : ℚ} (hs : SortedByStart words)
    {i j : Nat} (hi : WindowProp words t i) (hj : WindowProp words t j)
    (hlt : i < j) : False := by
  obtain ⟨wi, hwi, hwit, hor⟩ := hi
  obtain ⟨wj, hwj, hwjt, _⟩ := hj
  rcases List.get?_eq_some.mp hwj with ⟨hjlen, _⟩
  rcases hor with hl | ⟨w2, hw2, ht2⟩
  · omega
  · have hmono : w2.start ≤ wj.start := sorted_start_mono hs hw2 hwj (by omega)
    have : t < wj.start := lt_of_lt_of_le ht2 hmono
    exact absurd hwjt (not_le.mpr this)

/-- In a sorted transcript the window contract holds at no more than one
position. -/
theorem window_unique {words : List Token} {t : ℚ} (hs : SortedByStart words)
    {i j : Nat} (hi : WindowProp words t i) (hj : WindowProp words t j) :
    i = j := by
  rcases Nat.lt_trichotomy i j with h | h | h
  · exact absurd (window_not_lt hs hi hj h) (by simp)
  · exact h
  · exact absurd (window_not_lt hs hj hi h) (by simp)

/-- C1 counterexample: on the one-token transcript whose token starts at
second 1, `activeWordIndex` at time 0 (before the first token's start)
returns `-1`, not the index `0` the claim requires. -/
theorem locate_before_first_token_counterexample :
    activeWordIndex [⟨"hello", 1, 2, none⟩] 0 = -1 ∧
      activeWordIndex [⟨"hello", 1, 2, none⟩] 0 ≠ 0 := by
  decide

/-- C1 (amended): for every token sequence sorted by non-decreasing `start`
containing a first token, and every time strictly before that first token's
start, `activeWordIndex` returns `-1` (no active word), because the
`findIndex` predicate `currentTime >= word.start` fails at every index. -/
theorem locate_before_first_token (words : List Token) (t : ℚ) (w0 : Token)
    (hs : SortedByStart words) (h0 : words.get? 0 = some w0)
    (ht : t < w0.start) : activeWordIndex words t = -1 := by
  rcases findIndexFrom_spec (activePred words t) words 0 with ⟨h1, _⟩ | ⟨j, x, hx, _, h2, _⟩
  · exact h1
  · exfalso
    unfold activePred at h2
    rw [Bool.and_eq_true] at h2
    have hxt : x.start ≤ t := by simpa using h2.1
    have hmono : w0.start ≤ x.start := sorted_start_mono hs h0 hx (Nat.zero_le j)
    linarith

/-- C1 amended witness at a concrete input. -/
theorem locate_before_first_token_witness :
    activeWordIndex [⟨"hello", 1, 2, none⟩] 0 = -1 :=
  locate_before_first_token [⟨"hello", 1, 2, none⟩] 0 ⟨"hello", 1, 2, none⟩
    (by unfold SortedByStart; decide) (by decide) (by decide)

/-- C5: for every non-empty token sequence sorted by non-decreasing `start`
and every time at or after the first token's start, `activeWordIndex`
returns exactly one index `i` with `tokens[i].start <= time` and (`i` is the
last index or `time < tokens[i+1].start`); and on the empty sequence it
returns `-1` (none) for every time. -/
theorem locate_window_contract :
    (∀ (words : List Token) (t : ℚ) (w0 : Token), SortedByStart words →
        words.get? 0 = some w0 → w0.start ≤ t →
        ∃ i : Nat, activeWordIndex words t = (i : Int) ∧ WindowProp words t i ∧
          ∀ j, WindowProp words t j → j = i) ∧
    (∀ t : ℚ, activeWordIndex ([] : List Token) t = -1) := by
  constructor
  · intro words t w0 hs h0 ht
    rcases findIndexFrom_spec (activePred words t) words 0 with ⟨_, h2⟩ | ⟨j, x, hx, h1, h2, _⟩
    · exfalso
      rcases exists_window words t words.length 0 w0 h0 ht (by omega) with ⟨j, _, hwp⟩
      obtain ⟨wj, hwj, _, _⟩ := id hwp
      have hfalse := h2 j wj hwj
      have htrue : activePred words t wj j = true :=
        (activePred_eq_true_iff words t wj j hwj).mpr hwp
      rw [Nat.zero_add] at hfalse
      rw [htrue] at hfalse
      exact absurd hfalse (by simp)
    · have htrue : activePred words t x j = true := by
        have := h2
        rwa [Nat.zero_add] at this
      have hwp : WindowProp words t j := (activePred_eq_true_iff words t x j hx).mp htrue
      refine ⟨j, ?_, hwp, ?_⟩
      · unfold activeWordIndex findIndex
        rw [h1]
        norm_num
      · intro k hk
        exact window_unique hs hk hwp
  · intro t
    rfl

/-- C5 witness at a concrete input. -/
theorem locate_window_contract_witness :
    (∃ i : Nat,
        activeWordIndex [⟨"a", 0, 1, none⟩, ⟨"b", 2, 3, none⟩] 1 = (i : Int) ∧
        WindowProp [⟨"a", 0, 1, none⟩, ⟨"b", 2, 3, none⟩] 1 i ∧
        ∀ j, WindowProp [⟨"a", 0, 1, none⟩, ⟨"b", 2, 3, none⟩] 1 j → j = i) ∧
      activeWordIndex ([] : List Token) 7 = -1 :=
  ⟨locate_window_contract.1 [⟨"a", 0, 1, none⟩, ⟨"b", 2, 3, none⟩] 1
      ⟨"a", 0, 1, none⟩ (by unfold SortedByStart; decide) (by decide) (by decide),
    locate_window_contract.2 7⟩

/-! ## Search Engine (`performSearch` in the search page) -/

/-- Whether `needle` matches character-by-character at the very start of `hay`. -/
def leadMatch : List Char → List Char → Bool
  | [], _ => true
  | _ :: _, [] => false
  | a :: as, b :: bs => a == b && leadMatch as bs

/-- Whether `needle` occurs contiguously somewhere in `hay`. -/
def charsIncl (needle : List Char) : List Char → Bool
  | [] => needle.isEmpty
  | c :: rest => leadMatch needle (c :: rest) || charsIncl needle rest

/-- JavaScript `String.prototype.includes`: substring containment on the
character sequences. -/
def strIncludes (s sub : String) : Bool :=
  charsIncl sub.data s.data

/-- The inner `j` loop of `performSearch`: pushes `words[j].word` for `j`
from `Math.max(0, i - 5)` to `Math.min(words.length, i + 6)` exclusive.
Nat subtraction `i - 5` is exactly `Math.max(0, i - 5)`. -/
def contextWindow (words : List Token) (i : Nat) : List String :=
  (List.range' (i - 5) (min words.length (i + 6) - (i - 5))).map
    fun j => (words.getD j default).word

/-- The joined window `contextWindow.join(' ')` from `performSearch`. -/
def contextText (words : List Token) (i : Nat) : String :=
  String.intercalate " " (contextWindow words i)

/-- JavaScript `String.prototype.toLowerCase`: per-character lowercasing.
(The library `String.toLower` is identical up to `String.map`, but is
embedded directly over the character list so that it evaluates.) -/
def strToLower (s : String) : String := ⟨s.data.map Char.toLower⟩

/-- The match test of `performSearch`:
`contextText.toLowerCase().includes(query)`, `query` being the already
lowercased search query. -/
def windowMatch (words : List Token) (query : String) (i : Nat) : Bool :=
  strIncludes (strToLower (contextText words i)) query

/-- A search match as pushed by `performSearch`: the joined context text and
the start time of the window's first token
(`words[Math.max(0, i - 5)].start`). -/
structure SMatch where
  text : String
  startTime : ℚ
deriving DecidableEq, Repr

/-- The scan loop of `performSearch` starting at index `i`, with an explicit
iteration budget `fuel` (each iteration advances `i` by at least 1, so
`words.length - i` iterations always suffice; the budget keeps the
recursion structural so that it evaluates). On a match the loop pushes the
context text and `words[Math.max(0, i - 5)].start`, then does `i += 5`, and
the `for` increment advances by one more. -/
def scanFromFuel (words : List Token) (query : String) : Nat → Nat → List SMatch
  | _, 0 => []
  | i, fuel + 1 =>
    if i < words.length then
      if windowMatch words query i then
        { text := contextText words i,
          startTime := (words.getD (i - 5) default).start } ::
          scanFromFuel words query (i + 6) fuel
      else scanFromFuel words query (i + 1) fuel
    else []

/-- The scan loop of `performSearch` from index `i`. -/
def scanFrom (words : List Token) (query : String) (i : Nat) : List SMatch :=
  scanFromFuel words query i (words.length - i)

/-- The whole of `performSearch` over one completed transcript: lowercase the query, run
the scan from index 0, return `matches.slice(0, 3)`. -/
def performSearchMatches (words : List Token) (searchQuery : String) : List SMatch :=
  (scanFrom words (strToLower searchQuery) 0).take 3

/-- The indices at which the scan loop of `performSearch` evaluates its
window-match test, starting from `i` (same control flow as `scanFromFuel`):
after a match at `i` the next tested index is `i + 6`, otherwise `i + 1`. -/
def testedFromFuel (words : List Token) (query : String) : Nat → Nat → List Nat
  | _, 0 => []
  | i, fuel + 1 =>
    if i < words.length then
      if windowMatch words query i then i :: testedFromFuel words query (i + 6) fuel
      else i :: testedFromFuel words query (i + 1) fuel
    else []

/-- The indices tested by the scan loop of `performSearch` from index `i`. -/
def testedFrom (words : List Token) (query : String) (i : Nat) : List Nat :=
  testedFromFuel words query i (words.length - i)

/-- Any sufficient iteration budget yields the same scan result. -/
theorem scanFromFuel_congr (words : List Token) (query : String) :
    ∀ f1 f2 i, words.length - i ≤ f1 → words.length - i ≤ f2 →
      scanFromFuel words query i f1 = scanFromFuel words query i f2 := by
  intro f1
  induction f1 with
  | zero =>
    intro f2 i h1 _
    cases f2 with
    | zero => rfl
    | succ f2 =>
      have : ¬ i < words.length := by omega
      simp [scanFromFuel, this]
  | succ f1 ih =>
    intro f2 i h1 h2
    cases f2 with
    | zero =>
      have : ¬ i < words.length := by omega
      simp [scanFromFuel, this]
    | succ f2 =>
      by_cases hi : i < words.length
      · by_cases hm : windowMatch words query i = true
        · simp only [scanFromFuel, if_pos hi, if_pos hm]
          rw [ih f2 (i + 6) (by omega) (by omega)]
        · have hm' : windowMatch words query i = false := by
            revert hm
            cases windowMatch words query i <;> simp
          have hnf : ¬ (false = true) := by simp
          simp only [scanFromFuel, if_pos hi, hm', if_neg hnf]
          exact ih f2 (i + 1) (by omega) (by omega)
      · simp [scanFromFuel, hi]

/-- Every index the scan loop tests from position `i` is at least `i`. -/
theorem testedFromFuel_ge (words : List Token) (query : String) :
    ∀ fuel i j, j ∈ testedFromFuel words query i fuel → i ≤ j := by
  intro fuel
  induction fuel with
  | zero =>
    intro i j hj
    simp [testedFromFuel] at hj
  | succ fuel ih =>
    intro i j hj
    by_cases hi : i < words.length
    · by_cases hm : windowMatch words query i = true
      · simp only [testedFromFuel, if_pos hi, if_pos hm, List.mem_cons] at hj
        rcases hj with rfl | hj
        · exact le_refl j
        · have := ih (i + 6) j hj
          omega
      · simp only [testedFromFuel, if_pos hi, if_neg hm, List.mem_cons] at hj
        rcases hj with rfl | hj
        · exact le_refl j
        · have := ih (i + 1) j hj
          omega
    · simp [testedFromFuel, hi] at hj

/-- Any sufficient iteration budget yields the same tested-index list. -/
theorem testedFromFuel_congr (words : List Token) (query : String) :
    ∀ f1 f2 i, words.length - i ≤ f1 → words.length - i ≤ f2 →
      testedFromFuel words query i f1 = testedFromFuel words query i f2 := by
  intro f1
  induction f1 with
  | zero =>
    intro f2 i h1 _
    cases f2 with
    | zero => rfl
    | succ f2 =>
      have : ¬ i < words.length := by omega
      simp [testedFromFuel, this]
  | succ f1 ih =>
    intro f2 i h1 h2
    cases f2 with
    | zero =>
      have : ¬ i < words.length := by omega
      simp [testedFromFuel, this]
    | succ f2 =>
      by_cases hi : i < words.length
      · by_cases hm : windowMatch words query i = true
        · simp only [testedFromFuel, if_pos hi, if_pos hm]
          rw [ih f2 (i + 6) (by omega) (by omega)]
        · have hm' : windowMatch words query i = false := by
            revert hm
            cases windowMatch words query i <;> simp
          have hnf : ¬ (false = true) := by simp
          simp only [testedFromFuel, if_pos hi, hm', if_neg hnf]
          rw [ih f2 (i + 1) (by omega) (by omega)]
      · simp [testedFromFuel, hi]

/-- Twelve identical tokens "x" at 1-second increments: every context window
matches the query "x". -/
def demoRepeat : List Token := (List.range 12).map fun k => ⟨"x", (k : ℚ), (k : ℚ), none⟩

/-- The §8 search-windowing example: tokens "a".."l" at 1-second increments
starting at 0. -/
def demoAlpha : List Token :=
  [⟨"a", 0, 1, none⟩, ⟨"b", 1, 2, none⟩, ⟨"c", 2, 3, none⟩, ⟨"d", 3, 4, none⟩,
   ⟨"e", 4, 5, none⟩, ⟨"f", 5, 6, none⟩, ⟨"g", 6, 7, none⟩, ⟨"h", 7, 8, none⟩,
   ⟨"i", 8, 9, none⟩, ⟨"j", 9, 10, none⟩, ⟨"k", 10, 11, none⟩, ⟨"l", 11, 12, none⟩]

/-- C2 counterexample: on 12 identical "x" tokens with query "x" the window
at index 0 matches, yet the indices the scan actually tests are `[0, 6]`:
index 5 is never tested, so the next tested index after a match at `i` is
not `i + 5`. -/
theorem match_skip_counterexample :
    windowMatch demoRepeat "x" 0 = true ∧
      testedFrom demoRepeat "x" 0 = [0, 6] ∧
      ¬ (5 ∈ testedFrom demoRepeat "x" 0) := by
  decide

/-- C2 (amended): on a match at tested index `i` the code advances the scan
index by 5 and the `for` increment adds one more, so the next tested token
index after a match at `i` is `i + 6`: the tested-index sequence from `i`
continues at `i + 6`, and every subsequently tested index is at least
`i + 6`. -/
theorem match_advances_scan_by_six (words : List Token) (query : String) (i : Nat)
    (hi : i < words.length) (hm : windowMatch words query i = true) :
    testedFrom words query i = i :: testedFrom words query (i + 6) ∧
      ∀ j ∈ testedFrom words query (i + 6), i + 6 ≤ j := by
  constructor
  · unfold testedFrom
    have hfuel : words.length - i = (words.length - i - 1) + 1 := by omega
    rw [hfuel]
    simp only [testedFromFuel, if_pos hi, if_pos hm]
    rw [testedFromFuel_congr words query (words.length - i - 1)
      (words.length - (i + 6)) (i + 6) (by omega) (by omega)]
  · intro j hj
    exact testedFromFuel_ge words query (words.length - (i + 6)) (i + 6) j hj

/-- C2 amended witness at a concrete input. -/
theorem match_advances_scan_by_six_witness :
    testedFrom demoRepeat "x" 0 = 0 :: testedFrom demoRepeat "x" 6 ∧
      ∀ j ∈ testedFrom demoRepeat "x" 6, 6 ≤ j :=
  match_advances_scan_by_six demoRepeat "x" 0 (by decide) (by decide)

/-- The §4.4 window description, stated as in the spec for comparison with
the code's `contextWindow`: token texts at indices `max(0, i-5)` through
`min(len-1, i+5)` inclusive. -/
def specWindowTexts (words : List Token) (i : Nat) : List String :=
  (List.range' (i - 5) (min (words.length - 1) (i + 5) + 1 - (i - 5))).map
    fun j => (words.getD j default).word

/-- For an in-range scan index, the code's exclusive-upper-bound window
equals the spec's inclusive window `max(0, i-5) .. min(len-1, i+5)`. -/
theorem contextWindow_eq_spec (words : List Token) (i : Nat)
    (h : i < words.length) :
    contextWindow words i = specWindowTexts words i := by
  unfold contextWindow specWindowTexts
  have harith : min words.length (i + 6) - (i - 5) =
      min (words.length - 1) (i + 5) + 1 - (i - 5) := by omega
  rw [harith]

/-- Every match emitted by the scan loop comes from a matching window at
some in-range index `j ≥ i`, carries that window's joined text, and its
start time is the start of the token at index `j - 5` (i.e.
`max(0, j-5)`). -/
theorem scanFromFuel_mem (words : List Token) (query : String) :
    ∀ fuel i m, m ∈ scanFromFuel words query i fuel →
      ∃ j, i ≤ j ∧ j < words.length ∧ windowMatch words query j = true ∧
        m.text = contextText words j ∧
        ∃ w, words.get? (j - 5) = some w ∧ m.startTime = w.start := by
  intro fuel
  induction fuel with
  | zero =>
    intro i m hm
    simp [scanFromFuel] at hm
  | succ fuel ih =>
    intro i m hm
    by_cases hi : i < words.length
    · by_cases hw : windowMatch words query i = true
      · simp only [scanFromFuel, if_pos hi, if_pos hw, List.mem_cons] at hm
        rcases hm with rfl | hm
        · refine ⟨i, le_refl i, hi, hw, rfl, ?_⟩
          have hlt : i - 5 < words.length := by omega
          refine ⟨words.get ⟨i - 5, hlt⟩, List.get?_eq_get hlt, ?_⟩
          rw [List.getD_eq_get words default hlt]
        · rcases ih (i + 6) m hm with ⟨j, hj, hrest⟩
          exact ⟨j, by omega, hrest⟩
      · simp only [scanFromFuel, if_pos hi, if_neg hw] at hm
        rcases ih (i + 1) m hm with ⟨j, hj, hrest⟩
        exact ⟨j, by omega, hrest⟩
    · simp [scanFromFuel, hi] at hm

/-- C6: each match's context text is the single-space join of the token
texts from `max(0, i-5)` to `min(len-1, i+5)` inclusive; the match test is
containment of the (pre-lowercased) query in the lower-cased joined window;
a match's start time is the start of the token at `max(0, i-5)`. On the
12-token transcript "a".."l" at 1-second increments with query "a"
(matching only token index 0), the single returned window spans tokens 0-5
with start time 0. -/
theorem search_window_content :
    (∀ (words : List Token) (i : Nat), i < words.length →
        contextText words i = String.intercalate " " (specWindowTexts words i)) ∧
    (∀ (words : List Token) (query : String) (m : SMatch),
        m ∈ scanFrom words query 0 →
        ∃ j, j < words.length ∧
          windowMatch words query j = true ∧
          m.text = contextText words j ∧
          ∃ w, words.get? (j - 5) = some w ∧ m.startTime = w.start) ∧
    performSearchMatches demoAlpha "a" = [{ text := "a b c d e f", startTime := 0 }] := by
  refine ⟨?_, ?_, by decide⟩
  · intro words i h
    unfold contextText
    rw [contextWindow_eq_spec words i h]
  · intro words query m hm
    rcases scanFromFuel_mem words query (words.length - 0) 0 m hm with ⟨j, _, hrest⟩
    exact ⟨j, hrest⟩

/-- C6 witness at a concrete input. -/
theorem search_window_content_witness :
    contextText demoAlpha 0 = String.intercalate " " (specWindowTexts demoAlpha 0) ∧
      ∃ j, j < demoAlpha.length ∧
        windowMatch demoAlpha "a" j = true ∧
        SMatch.text { text := "a b c d e f", startTime := 0 } = contextText demoAlpha j ∧
        ∃ w, demoAlpha.get? (j - 5) = some w ∧
          SMatch.startTime { text := "a b c d e f", startTime := 0 } = w.start :=
  ⟨search_window_content.1 demoAlpha 0 (by decide),
    search_window_content.2.1 demoAlpha "a" { text := "a b c d e f", startTime := 0 }
      (by decide)⟩

/-! ## Transcript lifecycle: observations, retry, polling (`PlayerPage`) -/

/-- The `getTranscript` endpoint response consumed by `loadTranscript`:
`{ status, transcript? }`, the transcript being its word list. -/
structure TranscriptResponse where
  status : Status
  transcript : Option (List Token)
deriving DecidableEq, Repr

/-- The player page's displayed transcript state: `transcriptStatus` and
`transcriptWords`. -/
structure ViewState where
  status : Status
  words : List Token
deriving DecidableEq, Repr

/-- The state mutation of a successful `loadTranscript`: always
`setTranscriptStatus(response.status)`, and `setTranscriptWords` only when
`response.transcript` is present. -/
def applyObservation (vs : ViewState) (r : TranscriptResponse) : ViewState :=
  { status := r.status,
    words := match r.transcript with
      | some ws => ws
      | none => vs.words }

/-- One `loadTranscript` call as seen by the view: a failed fetch (the
`catch` branch, embedded as `none`) leaves the displayed state unchanged. -/
def pollObserve (vs : ViewState) (r : Option TranscriptResponse) : ViewState :=
  match r with
  | none => vs
  | some resp => applyObservation vs resp

/-- The state mutation of a successful `handleRetryTranscription`:
`setTranscriptStatus('processing'); setTranscriptWords([])`. -/
def retryLocal (_vs : ViewState) : ViewState :=
  { status := .processing, words := [] }

/-- C7: after a successful retry the displayed status is `processing` with
no tokens, and — under the §6 interface contract that a transcript is
present only with status `completed` — the displayed token sequence stays
empty across any sequence of poll observations none of which reports
`completed`. -/
theorem retry_clears_tokens_until_completed (vs : ViewState)
    (obs : List (Option TranscriptResponse))
    (hwf : ∀ resp, some resp ∈ obs → resp.transcript ≠ none →
      resp.status = Status.completed)
    (hnc : ∀ resp, some resp ∈ obs → resp.status ≠ Status.completed) :
    (retryLocal vs).status = Status.processing ∧
      (obs.foldl pollObserve (retryLocal vs)).words = [] := by
  refine ⟨rfl, ?_⟩
  have key : ∀ (l : List (Option TranscriptResponse)) (s : ViewState),
      (∀ resp, some resp ∈ l → resp.transcript ≠ none →
        resp.status = Status.completed) →
      (∀ resp, some resp ∈ l → resp.status ≠ Status.completed) →
      s.words = [] → (l.foldl pollObserve s).words = [] := by
    intro l
    induction l with
    | nil =>
      intro s _ _ hs
      simpa using hs
    | cons r rest ih =>
      intro s hwf1 hnc1 hs
      simp only [List.foldl_cons]
      apply ih
      · intro resp hresp
        exact hwf1 resp (List.mem_cons_of_mem _ hresp)
      · intro resp hresp
        exact hnc1 resp (List.mem_cons_of_mem _ hresp)
      · cases r with
        | none => simpa [pollObserve] using hs
        | some resp =>
          cases htr : resp.transcript with
          | none => simp [pollObserve, applyObservation, htr, hs]
          | some ws =>
            have h1 := hwf1 resp (List.mem_cons_self _ _) (by simp [htr])
            exact absurd h1 (hnc1 resp (List.mem_cons_self _ _))
  exact key obs (retryLocal vs) hwf hnc rfl

/-- C7 witness at a concrete input. -/
theorem retry_clears_tokens_until_completed_witness :
    (retryLocal ⟨Status.failed, [⟨"w", 0, 1, none⟩]⟩).status = Status.processing ∧
      ([some ⟨Status.processing, none⟩, none].foldl pollObserve
        (retryLocal ⟨Status.failed, [⟨"w", 0, 1, none⟩]⟩)).words = [] :=
  retry_clears_tokens_until_completed ⟨Status.failed, [⟨"w", 0, 1, none⟩]⟩
    [some ⟨Status.processing, none⟩, none]
    (by
      intro resp hresp
      simp at hresp
      subst hresp
      intro h
      simp at h)
    (by
      intro resp hresp
      simp at hresp
      subst hresp
      decide)

/-! ## Poller timers (`startPolling`, the tick, teardown cleanup) -/

/-- The poller state: `pollIntervalRef` together with the timer-id supply and the displayed
transcript state: `timer` is the id of the live interval, if any, and
`nextId` is the id the next `setInterval` call returns. (The ref and the
live interval are identified: in the source they can differ only by
`clearInterval` calls on already-dead ids, which are no-ops.) -/
structure PollSys where
  timer : Option Nat
  nextId : Nat
  view : ViewState
deriving DecidableEq, Repr

/-- Embeds `startPolling`: clears any existing interval and installs a fresh one
(`setInterval` returns a fresh id, stored in the ref). -/
def startPoll (s : PollSys) : PollSys :=
  { timer := some s.nextId, nextId := s.nextId + 1, view := s.view }

/-- Clearing the poll timer (`clearInterval` plus ref reset): both the
terminal-status branch inside the tick and the teardown cleanup reduce to
this. -/
def stopPoll (s : PollSys) : PollSys :=
  { s with timer := none }

/-- The tick's stop test: `status === 'completed' || status === 'failed'`. -/
def isTerminal (st : Status) : Bool :=
  st == Status.completed || st == Status.failed

/-- One firing of the interval callback installed by `startPolling`,
carrying the id of the interval it belongs to: a cleared or superseded
interval never fires (`clearInterval` semantics, the `else` branch); a
failed fetch (`none`, `loadTranscript` returning `null`) changes nothing
and keeps polling; a successful fetch applies the observation and clears
the interval when the status is terminal. -/
def pollTick (s : PollSys) (id : Nat) (r : Option TranscriptResponse) : PollSys :=
  if s.timer = some id then
    match r with
    | none => s
    | some resp =>
      if isTerminal resp.status then
        { timer := none, nextId := s.nextId, view := applyObservation s.view resp }
      else
        { timer := s.timer, nextId := s.nextId, view := applyObservation s.view resp }
  else s

/-- The events acting on the poll system: an interval callback firing
(tagged with its interval id and fetch result), the teardown cleanup, and a
superseding `startPolling`. -/
inductive PollEvent where
  | tick (id : Nat) (r : Option TranscriptResponse)
  | stop
  | start
deriving DecidableEq, Repr

/-- Interpretation of one event. -/
def pollStep (s : PollSys) (e : PollEvent) : PollSys :=
  match e with
  | .tick id r => pollTick s id r
  | .stop => stopPoll s
  | .start => startPoll s

/-- Interpretation of an event sequence. -/
def runEvents (s : PollSys) (evs : List PollEvent) : PollSys :=
  evs.foldl pollStep s

/-- Any live timer id was allocated from the `nextId` supply. -/
def TimerFresh (s : PollSys) : Prop :=
  ∀ i, s.timer = some i → i < s.nextId

/-- Interval `id` is dead: it is not the live timer, and it was already
allocated, so no future `setInterval` returns it again. -/
def DeadId (s : PollSys) (id : Nat) : Prop :=
  s.timer ≠ some id ∧ id < s.nextId

/-- A tick of an interval that is not the live one changes nothing. -/
theorem pollTick_dead (s : PollSys) (id : Nat) (r : Option TranscriptResponse)
    (h : s.timer ≠ some id) : pollTick s id r = s := by
  simp [pollTick, h]

/-- Every event preserves freshness of the id supply and deadness of a dead
interval id. -/
theorem pollStep_preserves (s : PollSys) (e : PollEvent) (id : Nat)
    (hf : TimerFresh s) (hd : DeadId s id) :
    TimerFresh (pollStep s e) ∧ DeadId (pollStep s e) id := by
  obtain ⟨hd1, hd2⟩ := hd
  cases e with
  | tick tid r =>
    show TimerFresh (pollTick s tid r) ∧ DeadId (pollTick s tid r) id
    by_cases ht : s.timer = some tid
    · cases r with
      | none =>
        simp only [pollTick, if_pos ht]
        exact ⟨hf, hd1, hd2⟩
      | some resp =>
        by_cases hterm : isTerminal resp.status = true
        · simp only [pollTick, if_pos ht, hterm, if_pos rfl]
          refine ⟨?_, ?_, hd2⟩
          · intro i hi
            simp at hi
          · simp
        · have hterm' : isTerminal resp.status = false := by
            revert hterm
            cases isTerminal resp.status <;> simp
          have hnf : ¬ (false = true) := by simp
          simp only [pollTick, if_pos ht, hterm', if_neg hnf]
          exact ⟨hf, hd1, hd2⟩
    · rw [pollTick_dead s tid r ht]
      exact ⟨hf, hd1, hd2⟩
  | stop =>
    refine ⟨?_, ?_, hd2⟩
    · intro i hi
      simp [pollStep, stopPoll] at hi
    · simp [pollStep, stopPoll]
  | start =>
    refine ⟨?_, ?_, ?_⟩
    · intro i hi
      have hin : s.nextId = i := by
        simpa [pollStep, startPoll] using hi
      show i < s.nextId + 1
      omega
    · show (startPoll s).timer ≠ some id
      simp only [startPoll, ne_eq, Option.some.injEq]
      omega
    · show id < s.nextId + 1
      omega

/-- Event sequences preserve freshness and deadness. -/
theorem runEvents_preserves (id : Nat) :
    ∀ (evs : List PollEvent) (s : PollSys), TimerFresh s → DeadId s id →
      TimerFresh (runEvents s evs) ∧ DeadId (runEvents s evs) id := by
  intro evs
  induction evs with
  | nil =>
    intro s hf hd
    exact ⟨hf, hd⟩
  | cons e rest ih =>
    intro s hf hd
    have h := pollStep_preserves s e id hf hd
    exact ih (pollStep s e) h.1 h.2

/-- C8: a tick observing a terminal status clears the polling timer and the
fired interval id becomes permanently dead; teardown `stop` clears the
timer; a superseding `startPolling` kills the previous interval; and once
an interval id is dead (in a state with a fresh id supply), a tick of that
interval never changes the displayed status, tokens, or timer again, no
matter which events ran in between. -/
theorem poll_termination_and_cancellation :
    (∀ (s : PollSys) (id : Nat) (resp : TranscriptResponse),
        s.timer = some id → isTerminal resp.status = true →
        (pollTick s id (some resp)).timer = none) ∧
    (∀ s : PollSys, (stopPoll s).timer = none) ∧
    (∀ (s : PollSys) (id : Nat), TimerFresh s → s.timer = some id →
        ∀ resp : TranscriptResponse, isTerminal resp.status = true →
        DeadId (pollTick s id (some resp)) id) ∧
    (∀ (s : PollSys) (id : Nat), TimerFresh s → s.timer = some id →
        DeadId (startPoll s) id) ∧
    (∀ (s : PollSys) (id : Nat), TimerFresh s → DeadId s id →
        ∀ (evs : List PollEvent) (r : Option TranscriptResponse),
          pollTick (runEvents s evs) id r = runEvents s evs) := by
  refine ⟨?_, ?_, ?_, ?_, ?_⟩
  · intro s id resp ht hterm
    simp [pollTick, if_pos ht, hterm]
  · intro s
    rfl
  · intro s id hf ht resp hterm
    have h1 : pollTick s id (some resp) =
        { timer := none, nextId := s.nextId, view := applyObservation s.view resp } := by
      simp [pollTick, if_pos ht, hterm]
    unfold DeadId
    rw [h1]
    exact ⟨by simp, hf id ht⟩
  · intro s id hf ht
    constructor
    · have := hf id ht
      simp only [startPoll, ne_eq, Option.some.injEq]
      omega
    · have := hf id ht
      simp only [startPoll]
      omega
  · intro s id hf hd evs r
    have h := runEvents_preserves id evs s hf hd
    exact pollTick_dead (runEvents s evs) id r h.2.1

/-- C8 witness at a concrete input. -/
theorem poll_termination_and_cancellation_witness :
    (pollTick ⟨some 0, 1, ⟨Status.processing, []⟩⟩ 0
        (some ⟨Status.completed, some [⟨"w", 0, 1, none⟩]⟩)).timer = none ∧
      pollTick (runEvents ⟨none, 1, ⟨Status.processing, []⟩⟩ [PollEvent.start]) 0 none =
        runEvents ⟨none, 1, ⟨Status.processing, []⟩⟩ [PollEvent.start] :=
  ⟨poll_termination_and_cancellation.1 ⟨some 0, 1, ⟨Status.processing, []⟩⟩ 0
      ⟨Status.completed, some [⟨"w", 0, 1, none⟩]⟩ rfl (by decide),
    poll_termination_and_cancellation.2.2.2.2 ⟨none, 1, ⟨Status.processing, []⟩⟩ 0
      (by
        intro i hi
        simp at hi)
      ⟨by decide, by decide⟩
      [PollEvent.start] none⟩

/-- C10: stopping an already-stopped poll is a no-op: `stopPoll` is a total
function (never throws), it is idempotent, and on a system whose timer is
already cleared it changes nothing at all. -/
theorem stop_idempotent :
    (∀ s : PollSys, stopPoll (stopPoll s) = stopPoll s) ∧
    (∀ s : PollSys, s.timer = none → stopPoll s = s) := by
  constructor
  · intro s
    rfl
  · intro s h
    cases s with
    | mk timer nextId view =>
      simp only [stopPoll]
      simp at h
      rw [h]

/-- C10 witness at a concrete input. -/
theorem stop_idempotent_witness :
    stopPoll ⟨none, 3, ⟨Status.uploaded, []⟩⟩ = ⟨none, 3, ⟨Status.uploaded, []⟩⟩ :=
  stop_idempotent.2 ⟨none, 3, ⟨Status.uploaded, []⟩⟩ rfl

/-! ## `TranscriptView` rendering branches -/

/-- The render outputs of `TranscriptView`, one per early-return branch. -/
inductive RenderOutput where
  | processingSpinner
  | failedPanel
  | preparingPanel
  | transcriptPanel (words : List Token) (activeIdx : Int)
deriving DecidableEq, Repr

/-- The branch structure of `TranscriptView`: `processing` → spinner,
`failed` → error panel with retry, `uploaded` or empty `words` → preparing
panel, otherwise the transcript content with the active word index. -/
def renderTranscriptView (status : Status) (words : List Token)
    (currentTime : ℚ) : RenderOutput :=
  if status = Status.processing then .processingSpinner
  else if status = Status.failed then .failedPanel
  else if status = Status.uploaded ∨ words.length = 0 then .preparingPanel
  else .transcriptPanel words (activeWordIndex words currentTime)

/-- C9: transcript tokens are rendered only when the displayed status is
`completed` (and at least one token exists): any rendering of the
transcript panel forces `status = completed`, so for `uploaded`,
`processing`, and `failed` the token sequence is never shown. -/
theorem tokens_visible_only_completed (status : Status) (words : List Token)
    (t : ℚ) (ws : List Token) (idx : Int)
    (h : renderTranscriptView status words t = RenderOutput.transcriptPanel ws idx) :
    status = Status.completed ∧ ws = words ∧ words ≠ [] := by
  cases status with
  | uploaded => simp [renderTranscriptView] at h
  | processing => simp [renderTranscriptView] at h
  | failed => simp [renderTranscriptView] at h
  | completed =>
    by_cases hw : words.length = 0
    · simp [renderTranscriptView, hw] at h
    · simp [renderTranscriptView, hw] at h
      refine ⟨rfl, h.1.symm, ?_⟩
      intro hnil
      subst hnil
      simp at hw

/-- C9 witness at a concrete input. -/
theorem tokens_visible_only_completed_witness :
    Status.completed = Status.completed ∧
      ([⟨"hi", 0, 1, none⟩] : List Token) = [⟨"hi", 0, 1, none⟩] ∧
      ([⟨"hi", 0, 1, none⟩] : List Token) ≠ [] :=
  tokens_visible_only_completed Status.completed [⟨"hi", 0, 1, none⟩] 0
    [⟨"hi", 0, 1, none⟩] 0 (by decide)

/-! ## Upload batch outcome (`Home.handleFilesSelected`) -/

/-- Displayed per-file upload entry status. -/
inductive UploadStatus where
  | uploading
  | success
  | error
deriving DecidableEq, Repr

/-- An `UploadingFile` display entry: the file name with its shown status
and error message. -/
structure UploadingFile where
  file : String
  status : UploadStatus
  error : Option String := none
deriving DecidableEq, Repr

/-- Outcome of `handleFilesSelected` for one batch: the whole batch goes
through a single `audioAPI.uploadAudio(files)` request; in the `try` branch
every entry is marked `success`; in the `catch` branch the one caught
`errorMessage` is written to every entry. -/
def uploadBatchOutcome (files : List String) (result : Except String Unit) :
    List UploadingFile :=
  match result with
  | .ok _ => files.map fun f => { file := f, status := .success, error := none }
  | .error msg => files.map fun f => { file := f, status := .error, error := some msg }

/-- C4 counterexample: a two-file batch whose upload request fails with a
message about the second file marks BOTH files as failed with that same
shared message — the sibling file is blocked by the failure and the message
shown on it is not its own. -/
theorem upload_failure_counterexample :
    uploadBatchOutcome ["good.mp3", "bad.mp3"] (Except.error "bad.mp3 is corrupted") =
      [{ file := "good.mp3", status := .error, error := some "bad.mp3 is corrupted" },
       { file := "bad.mp3", status := .error, error := some "bad.mp3 is corrupted" }] := by
  decide

/-- C4 (amended): upload failure is surfaced batch-wide, not per file: when
the single batched upload request fails, every file entry in the batch is
marked failed and carries the same batch-level error message. -/
theorem upload_failure_batchwide (files : List String) (msg : String)
    (f : UploadingFile) (hf : f ∈ uploadBatchOutcome files (Except.error msg)) :
    f.status = UploadStatus.error ∧ f.error = some msg := by
  unfold uploadBatchOutcome at hf
  rw [List.mem_map] at hf
  rcases hf with ⟨name, _, rfl⟩
  exact ⟨rfl, rfl⟩

/-- C4 amended witness at a concrete input. -/
theorem upload_failure_batchwide_witness :
    UploadingFile.status ⟨"a.mp3", UploadStatus.error, some "boom"⟩ = UploadStatus.error ∧
      UploadingFile.error ⟨"a.mp3", UploadStatus.error, some "boom"⟩ = some "boom" :=
  upload_failure_batchwide ["a.mp3"] "boom" ⟨"a.mp3", UploadStatus.error, some "boom"⟩
    (by decide)

/-! ## Status state machine (§4.2) -/

/-- Modelled from the spec: the transcription lifecycle transition relation.
The transition authority is the server-side transcription service, which is
not part of `src/` (the frontend only mirrors observed statuses), so the
legal transitions are those of spec §4.2: `Uploaded -> Processing`,
`Processing -> Completed`, `Processing -> Failed`, and `Failed ->
Processing` via retry. -/
def legalTransition : Status → Status → Bool
  | .uploaded, .processing => true
  | .processing, .completed => true
  | .processing, .failed => true
  | .failed, .processing => true
  | _, _ => false

/-- C3: the state machine admits exactly the four listed transitions;
`Completed` has no outgoing transition; from `Uploaded` only `Processing`
is reachable in one step; and the frontend's retry action (`retryLocal`,
from `handleRetryTranscription`) re-enters `Processing`, realising the
legal `Failed -> Processing` transition. -/
theorem status_machine_transitions :
    (∀ a b : Status, legalTransition a b = true ↔
        ((a = .uploaded ∧ b = .processing) ∨ (a = .processing ∧ b = .completed) ∨
          (a = .processing ∧ b = .failed) ∨ (a = .failed ∧ b = .processing))) ∧
    (∀ b : Status, legalTransition .completed b = false) ∧
    (∀ b : Status, legalTransition .uploaded b = true → b = .processing) ∧
    (∀ vs : ViewState, (retryLocal vs).status = .processing ∧
        legalTransition .failed (retryLocal vs).status = true) := by
  refine ⟨?_, ?_, ?_, ?_⟩
  · intro a b
    cases a <;> cases b <;> simp [legalTransition]
  · intro b
    cases b <;> rfl
  · intro b
    cases b <;> simp [legalTransition]
  · intro vs
    exact ⟨rfl, rfl⟩

/-- C3 witness at a concrete input. -/
theorem status_machine_transitions_witness :
    Status.processing = Status.processing ∧
      legalTransition Status.failed Status.processing = true :=
  ⟨status_machine_transitions.2.2.1 Status.processing rfl,
    (status_machine_transitions.1 Status.failed Status.processing).mpr
      (Or.inr (Or.inr (Or.inr ⟨rfl, rfl⟩)))⟩

end TranscriptCore
